import Mathlib

/-!
# Verification of `cpp_log_parser_cli`

A shallow embedding in Lean 4 of the single-translation-unit C++ program
`src/main.cpp` of the repository `cpp_log_parser_cli`, together with
theorems settling the specification claims about it.

Modelling conventions:
* C++ `std::string` values are Lean `String` values (a `String` here is a
  structure around a `List Char`, which we use freely via `.data`).
* The classic-locale character predicates `isspace`, `toupper`, `isdigit`
  are modelled on `Char` for the ASCII range, which is exactly the range the
  classic "C" locale defines them on.
* The `std::unordered_map<std::string,long long>` counters are modelled as
  association lists `List (String × Nat)`; `bump` models `operator[]++`
  (insertion order is used where the C++ map order is unspecified).
* Reading a file is modelled by a function `String → Option (List String)`
  from paths to line lists (`none` = the file cannot be opened); the
  process's observable behaviour is an exit code plus the lines written to
  standard output and standard error.
-/

/-- Classic-locale `isspace`: space, tab, newline, vertical tab, form feed,
carriage return (the whitespace set used by `trim` and by
`std::istringstream` token extraction). -/
def isspaceC (c : Char) : Bool :=
  c = ' ' || c = '\t' || c = '\n' || c = '\x0b' || c = '\x0c' || c = '\r'

/-- Classic-locale `toupper`: maps `'a'`–`'z'` to upper case, identity
elsewhere. -/
def toUpperC (c : Char) : Char :=
  if 'a' ≤ c && c ≤ 'z' then Char.ofNat (c.toNat - 32) else c

/-- Classic-locale `isdigit`. -/
def isdigitC (c : Char) : Bool := '0' ≤ c && c ≤ '9'

/-- `trim` from `main.cpp`: drop leading and trailing classic-locale
whitespace. The C++ computes the first index `start` with a non-space
character and the last such index `end`; dropping the leading run and then
the trailing run of whitespace yields exactly `s.substr(start, end-start)`. -/
def trim (s : String) : String :=
  ⟨(((s.data.dropWhile isspaceC).reverse.dropWhile isspaceC).reverse)⟩

/-- Whitespace tokenisation as performed by repeated `iss >> token` on an
`std::istringstream`: maximal runs of non-whitespace characters, in order.
`acc` is the (reversed) current token being accumulated. -/
def splitWsAux : List Char → List Char → List (List Char)
  | [], acc => if acc.isEmpty then [] else [acc.reverse]
  | c :: cs, acc =>
      if isspaceC c then
        if acc.isEmpty then splitWsAux cs [] else acc.reverse :: splitWsAux cs []
      else splitWsAux cs (c :: acc)

/-- The whitespace-delimited tokens of a line, left to right. -/
def tokenize (s : String) : List String :=
  (splitWsAux s.data []).map fun l => ⟨l⟩

/-- Uppercase every character of a string (the per-token uppercasing loop in
`extract_level`). -/
def upperStr (s : String) : String := ⟨s.data.map toUpperC⟩

/-- The candidate level list `levels` from `extract_level`. -/
def levels : List String :=
  ["TRACE", "DEBUG", "INFO", "WARN", "WARNING", "ERROR", "FATAL"]

/-- The token-scanning loop of `extract_level`: take the first token whose
uppercased form equals some candidate (the inner `for` loop over `levels`
is an equality test against each member, i.e. list membership), normalising
`WARNING` to `WARN`; if the tokens run out, `UNKNOWN`. -/
def findLevel : List String → String
  | [] => "UNKNOWN"
  | t :: ts =>
      if levels.contains (upperStr t) then
        (if upperStr t = "WARNING" then "WARN" else upperStr t)
      else findLevel ts

/-- `extract_level` from `main.cpp`. -/
def extract_level (line : String) : String :=
  findLevel (tokenize line)

/-- The separator `" - "` searched for by `extract_message`. -/
def markerChars : List Char := [' ', '-', ' ']

/-- `line.find(" - ")` followed by taking the suffix: returns the characters
after the first occurrence of `" - "`, or `none` when the separator does not
occur. -/
def afterMarker : List Char → Option (List Char)
  | [] => none
  | c :: cs =>
      if c = ' ' && cs.take 2 = ['-', ' '] then some (cs.drop 2)
      else afterMarker cs

/-- `extract_message` from `main.cpp`: text after the first `" - "` if
present, else the whole line; trimmed either way. -/
def extract_message (line : String) : String :=
  match afterMarker line.data with
  | some rest => trim ⟨rest⟩
  | none => trim line

/-- `std::stoi(s)` (base 10) as used by `parse_args`: skip leading
classic-locale whitespace, read an optional sign, then a non-empty digit
run (trailing junk after the digits is ignored); the result must fit in a
32-bit `int`. `none` models a thrown `std::invalid_argument` (no digits) or
`std::out_of_range` (value outside `int`), both of which `parse_args`
catches. -/
def stoi (s : String) : Option Int :=
  let cs := s.data.dropWhile isspaceC
  let (neg, cs) :=
    match cs with
    | '-' :: rest => (true, rest)
    | '+' :: rest => (false, rest)
    | _ => (false, cs)
  let digits := cs.takeWhile isdigitC
  if digits.isEmpty then none
  else
    let mag : Nat := digits.foldl (fun acc c => acc * 10 + (c.toNat - 48)) 0
    let v : Int := if neg then -(mag : Int) else (mag : Int)
    if -2147483648 ≤ v ∧ v ≤ 2147483647 then some v else none

/-- `parse_args` from `main.cpp`, on the full `argv` vector (program name
first).  Returns `some (filepath, top_n)` on success, `none` when the C++
function returns `false`.  `argc < 2` fails; `argc = 2` succeeds with the
default `top_n = 5`; `argc = 4` requires the flag `"--top"` and a value
`std::stoi` accepts, clamping results below `1` up to `1`; any other
`argc` fails. -/
def parse_args (argv : List String) : Option (String × Int) :=
  match argv with
  | _prog :: filepath :: rest =>
      match rest with
      | [] => some (filepath, 5)
      | [flag, nstr] =>
          if flag = "--top" then
            match stoi nstr with
            | some n => some (filepath, if n < 1 then 1 else n)
            | none => none
          else none
      | _ => none
  | _ => none

/-- The `Stats` struct from `main.cpp`; the two `unordered_map`s are
modelled as association lists in insertion order. -/
structure Stats where
  total_lines : Nat
  level_counts : List (String × Nat)
  message_counts : List (String × Nat)
deriving Repr, DecidableEq

/-- `m[k]++` on an `unordered_map` modelled as an association list:
increment the entry for `k`, inserting it with count `1` (value-initialised
`0`, then incremented) if absent. -/
def bump (m : List (String × Nat)) (k : String) : List (String × Nat) :=
  match m with
  | [] => [(k, 1)]
  | (a, n) :: rest => if a = k then (a, n + 1) :: rest else (a, n) :: bump rest k

/-- The per-line body of the `while (std::getline ...)` loop in
`process_file`: count the line, count its level, and count its message when
the trimmed message is non-empty. -/
def processLine (st : Stats) (line : String) : Stats :=
  let st1 : Stats :=
    { st with
      total_lines := st.total_lines + 1
      level_counts := bump st.level_counts (extract_level line) }
  let msg := extract_message line
  if msg = "" then st1
  else { st1 with message_counts := bump st1.message_counts msg }

/-- The processing pass of `process_file` over an already-opened file,
given as its list of lines. -/
def process_file (lines : List String) : Stats :=
  lines.foldl processLine ⟨0, [], []⟩

/-- Sum of the counter values of a map. -/
def sumValues (m : List (String × Nat)) : Nat := (m.map Prod.snd).sum

/-- The key set of a map. -/
def keys (m : List (String × Nat)) : List String := m.map Prod.fst

/-- `stats.level_counts.find(lvl)` as an option. -/
def lookupCount (m : List (String × Nat)) (k : String) : Option Nat :=
  match m with
  | [] => none
  | (a, n) :: rest => if a = k then some n else lookupCount rest k

/-- The fixed `common` level list of `print_results`. -/
def commonLevels : List String :=
  ["INFO", "WARN", "ERROR", "DEBUG", "TRACE", "FATAL", "UNKNOWN"]

/-- The comparator passed to `std::sort` in `print_results`, as a relation:
higher count first, ties broken by lexicographically smaller message
first. -/
def pairLe (a b : String × Nat) : Prop :=
  b.2 < a.2 ∨ (a.2 = b.2 ∧ a.1 ≤ b.1)

instance : DecidableRel pairLe := fun a b => by
  unfold pairLe; infer_instance

/-- The sorted `pairs` vector of `print_results`. -/
def sortPairs (m : List (String × Nat)) : List (String × Nat) :=
  List.insertionSort pairLe m

/-- The first `min top_n (number of entries)` sorted pairs: exactly the
entries the `for (int i = 0; i < limit; i++)` loop prints. -/
def topMessages (m : List (String × Nat)) (top_n : Nat) : List (String × Nat) :=
  (sortPairs m).take top_n

/-- One line `  rank) message (count)` of the top-messages report. -/
def fmtTop (rank : Nat) (p : String × Nat) : String :=
  "  " ++ toString rank ++ ") " ++ p.1 ++ " (" ++ toString p.2 ++ ")"

/-- The top-messages printing loop of `print_results`: `limit` iterations,
iteration `i` printing `pairs[i]` with 1-based rank `i + 1`. -/
def renderTopLines (m : List (String × Nat)) (top_n : Nat) : List String :=
  let pairs := sortPairs m
  let limit := min top_n pairs.length
  (List.range limit).map fun i => fmtTop (i + 1) (pairs.getD i ("", 0))

/-- One line `  LEVEL: count` of the level report. -/
def fmtLevel (lvl : String) (n : Nat) : String :=
  "  " ++ lvl ++ ": " ++ toString n

/-- The first level-printing loop of `print_results`: the `common` levels,
in their fixed order, that are present in the map. -/
def renderCommonLevelLines (m : List (String × Nat)) : List String :=
  commonLevels.filterMap fun lvl => (lookupCount m lvl).map (fmtLevel lvl)

/-- The second level-printing loop of `print_results`: map entries whose
key is not in `common` (the C++ iterates the `unordered_map` in unspecified
order; insertion order is used here). -/
def renderExtraLevelLines (m : List (String × Nat)) : List String :=
  (m.filter fun kv => ¬ commonLevels.contains kv.1).map fun kv =>
    fmtLevel kv.1 kv.2

/-- `print_results` from `main.cpp`, as the list of lines written to
standard output (a trailing `"\n"` becomes a final empty line). -/
def print_results (stats : Stats) (top_n : Nat) : List String :=
  ["", "Summary", "-------", "Total lines: " ++ toString stats.total_lines, ""]
    ++ ["Log levels:"]
    ++ renderCommonLevelLines stats.level_counts
    ++ renderExtraLevelLines stats.level_counts
    ++ ["", "Top messages:"]
    ++ renderTopLines stats.message_counts top_n
    ++ (if min top_n (sortPairs stats.message_counts).length = 0 then
          ["  (No messages found)"]
        else [])
    ++ [""]

/-- `print_usage` from `main.cpp`, as the list of lines written to standard
output. -/
def print_usage (exe : String) : List String :=
  ["Usage:",
   "  " ++ exe ++ " <log_file_path> [--top N]",
   "",
   "Examples:",
   "  " ++ exe ++ " sample_logs/sample.log",
   "  " ++ exe ++ " sample_logs/sample.log --top 10"]

/-- The executable name `main` passes to `print_usage`: `argv[0]` when
present, otherwise `"log_parser"`. -/
def exeName (argv : List String) : String :=
  match argv with
  | [] => "log_parser"
  | p :: _ => p

/-- The observable behaviour of one program run: exit code and the lines
written to each stream. -/
structure RunOutput where
  exitCode : Nat
  stdoutLines : List String
  stderrLines : List String
deriving Repr, DecidableEq

/-- `main` from `main.cpp`.  `fs` models the file system: the lines of the
file at a path, or `none` when `std::ifstream` cannot open it.  Parse
failure prints usage to standard output and exits `1`; open failure prints
an error naming the path to standard error and exits `2`; otherwise the
report goes to standard output and the exit code is `0`. -/
def mainRun (argv : List String) (fs : String → Option (List String)) :
    RunOutput :=
  match parse_args argv with
  | none => ⟨1, print_usage (exeName argv), []⟩
  | some (filepath, top_n) =>
      match fs filepath with
      | none => ⟨2, [], ["Error: Could not open file: " ++ filepath]⟩
      | some lines => ⟨0, print_results (process_file lines) top_n.toNat, []⟩

/-! ## Specification-side formulations (for the refinement claims) -/

/-- The claim's reading of level extraction: the **first** token (in
left-to-right order) whose uppercased form is one of the candidates, the
result being that uppercased form with `WARNING` normalised to `WARN`;
`UNKNOWN` when no token matches. -/
def extract_level_claim (line : String) : String :=
  match (tokenize line).find? (fun t => levels.contains (upperStr t)) with
  | some t => if upperStr t = "WARNING" then "WARN" else upperStr t
  | none => "UNKNOWN"

/-! ## Sanity checks on the spec's worked examples -/

example :
    extract_level "2026-01-15 10:03:21 INFO AuthService - User login ok" =
      "INFO" := by decide

example :
    extract_message "2026-01-15 10:03:21 INFO AuthService - User login ok" =
      "User login ok" := by decide

example : extract_level "x WARNING Billing - Slow query" = "WARN" := by decide

example : extract_level "plain text line" = "UNKNOWN" := by decide

example : extract_message "plain text line" = "plain text line" := by decide

example : extract_message "  spaced  " = "spaced" := by decide

/-! ## Helper lemmas -/

theorem afterMarker_some {cs rest : List Char}
    (h : afterMarker cs = some rest) :
    ∃ pre, cs = pre ++ markerChars ++ rest ∧
      ∀ pre' post', cs = pre' ++ markerChars ++ post' →
        pre.length ≤ pre'.length := by
  induction cs generalizing rest with
  | nil => simp [afterMarker] at h
  | cons c cs ih =>
      by_cases hg : c = ' ' ∧ cs.take 2 = ['-', ' ']
      · obtain ⟨h1, h2⟩ := hg
        subst h1
        simp only [afterMarker, h2] at h
        simp at h
        refine ⟨[], ?_, fun pre' post' _ => Nat.zero_le _⟩
        have hcs : cs = '-' :: ' ' :: cs.drop 2 := by
          conv_lhs => rw [← List.take_append_drop 2 cs]
          rw [h2]
          rfl
        rw [← h]
        simpa [markerChars] using hcs
      · have hguard : ¬((c = ' ' && cs.take 2 = ['-', ' ']) = true) := by
          simp only [Bool.and_eq_true, decide_eq_true_eq]
          exact fun hand => hg ⟨hand.1, hand.2⟩
        simp only [afterMarker, if_neg hguard] at h
        obtain ⟨pre, hpre, hmin⟩ := ih h
        refine ⟨c :: pre, by simp [hpre], ?_⟩
        intro pre' post' heq
        cases pre' with
        | nil =>
            exfalso
            simp only [List.nil_append, markerChars, List.cons_append,
              List.cons.injEq] at heq
            exact hg ⟨heq.1, by rw [heq.2]; rfl⟩
        | cons d pre'' =>
            simp only [List.cons_append, List.cons.injEq] at heq
            have := hmin pre'' post' heq.2
            simp only [List.length_cons]
            omega

theorem afterMarker_none {cs : List Char} (h : afterMarker cs = none) :
    ∀ pre post, cs ≠ pre ++ markerChars ++ post := by
  induction cs with
  | nil =>
      intro pre post heq
      simp [markerChars] at heq
  | cons c cs ih =>
      intro pre post heq
      by_cases hg : c = ' ' ∧ cs.take 2 = ['-', ' ']
      · obtain ⟨h1, h2⟩ := hg
        subst h1
        simp [afterMarker, h2] at h
      · have hguard : ¬((c = ' ' && cs.take 2 = ['-', ' ']) = true) := by
          simp only [Bool.and_eq_true, decide_eq_true_eq]
          exact fun hand => hg ⟨hand.1, hand.2⟩
        simp only [afterMarker, if_neg hguard] at h
        cases pre with
        | nil =>
            simp only [List.nil_append, markerChars, List.cons_append,
              List.cons.injEq] at heq
            exact hg ⟨heq.1, by rw [heq.2]; rfl⟩
        | cons d pre' =>
            simp only [List.cons_append, List.cons.injEq] at heq
            exact ih h pre' post heq.2

theorem findLevel_eq_find (ts : List String) :
    findLevel ts =
      match ts.find? (fun t => levels.contains (upperStr t)) with
      | some t => if upperStr t = "WARNING" then "WARN" else upperStr t
      | none => "UNKNOWN" := by
  induction ts with
  | nil => rfl
  | cons t ts ih =>
      by_cases h : levels.contains (upperStr t) = true
      · simp only [List.find?, h, findLevel, if_pos h]
        simp
      · have hf : levels.contains (upperStr t) = false := by simpa using h
        simp only [List.find?, hf, findLevel, if_neg h, ih]
        simp

theorem sumValues_bump (m : List (String × Nat)) (k : String) :
    sumValues (bump m k) = sumValues m + 1 := by
  induction m with
  | nil => rfl
  | cons a rest ih =>
      obtain ⟨x, n⟩ := a
      by_cases h : x = k
      · simp [bump, h, sumValues]
        omega
      · simp [bump, h, sumValues] at ih ⊢
        omega

theorem keys_bump (m : List (String × Nat)) (k : String) :
    keys (bump m k) = if k ∈ keys m then keys m else keys m ++ [k] := by
  induction m with
  | nil => simp [bump, keys]
  | cons p rest ih =>
      obtain ⟨x, n⟩ := p
      by_cases hx : x = k
      · simp [bump, hx, keys]
      · have hxk : ¬(k = x) := fun h => hx h.symm
        simp only [bump, if_neg hx, keys, List.map_cons] at ih ⊢
        rw [ih]
        by_cases hk : k ∈ List.map Prod.fst rest
        · simp [hk, hxk]
        · simp [hk, hxk]

theorem mem_keys_bump {m : List (String × Nat)} {k a : String}
    (h : a ∈ keys (bump m k)) : a ∈ keys m ∨ a = k := by
  rw [keys_bump] at h
  by_cases hk : k ∈ keys m
  · rw [if_pos hk] at h
    exact Or.inl h
  · rw [if_neg hk] at h
    rcases List.mem_append.mp h with h | h
    · exact Or.inl h
    · exact Or.inr (by simpa using h)

theorem nodup_keys_bump {m : List (String × Nat)} {k : String}
    (h : (keys m).Nodup) : (keys (bump m k)).Nodup := by
  rw [keys_bump]
  by_cases hk : k ∈ keys m
  · simpa [hk] using h
  · rw [if_neg hk]
    simp [List.nodup_append, h, hk]

theorem processLine_total (st : Stats) (l : String) :
    (processLine st l).total_lines = st.total_lines + 1 := by
  simp only [processLine]
  split <;> rfl

theorem processLine_levels (st : Stats) (l : String) :
    (processLine st l).level_counts = bump st.level_counts (extract_level l) := by
  simp only [processLine]
  split <;> rfl

theorem processLine_msgs (st : Stats) (l : String) :
    (processLine st l).message_counts =
      if extract_message l = "" then st.message_counts
      else bump st.message_counts (extract_message l) := by
  simp only [processLine]
  split <;> rename_i h <;> simp [h]

theorem foldl_total (lines : List String) : ∀ st : Stats,
    (lines.foldl processLine st).total_lines = st.total_lines + lines.length := by
  induction lines with
  | nil => intro st; simp
  | cons l ls ih =>
      intro st
      rw [List.foldl_cons, ih, processLine_total]
      simp only [List.length_cons]
      omega

theorem foldl_levelSum (lines : List String) : ∀ st : Stats,
    sumValues (lines.foldl processLine st).level_counts =
      sumValues st.level_counts + lines.length := by
  induction lines with
  | nil => intro st; simp
  | cons l ls ih =>
      intro st
      rw [List.foldl_cons, ih, processLine_levels, sumValues_bump]
      simp only [List.length_cons]
      omega

theorem foldl_msgSum (lines : List String) : ∀ st : Stats,
    sumValues (lines.foldl processLine st).message_counts =
      sumValues st.message_counts +
        (lines.filter fun l => extract_message l ≠ "").length := by
  induction lines with
  | nil => intro st; simp
  | cons l ls ih =>
      intro st
      rw [List.foldl_cons, ih, processLine_msgs]
      by_cases h : extract_message l = ""
      · simp [h, List.filter_cons]
      · simp [h, List.filter_cons, sumValues_bump]
        omega

theorem foldl_msg_keys (lines : List String) : ∀ st : Stats,
    "" ∉ keys st.message_counts →
      "" ∉ keys (lines.foldl processLine st).message_counts := by
  induction lines with
  | nil => intro st h; simpa using h
  | cons l ls ih =>
      intro st h
      rw [List.foldl_cons]
      apply ih
      rw [processLine_msgs]
      by_cases hm : extract_message l = ""
      · simpa [hm] using h
      · rw [if_neg hm]
        intro hc
        rcases mem_keys_bump hc with hc | hc
        · exact h hc
        · exact hm hc.symm

theorem foldl_msg_nodup (lines : List String) : ∀ st : Stats,
    (keys st.message_counts).Nodup →
      (keys (lines.foldl processLine st).message_counts).Nodup := by
  induction lines with
  | nil => intro st h; simpa using h
  | cons l ls ih =>
      intro st h
      rw [List.foldl_cons]
      apply ih
      rw [processLine_msgs]
      by_cases hm : extract_message l = ""
      · simpa [hm] using h
      · rw [if_neg hm]
        exact nodup_keys_bump h

theorem findLevel_mem_common (ts : List String) :
    findLevel ts ∈ commonLevels := by
  induction ts with
  | nil => simp [findLevel, commonLevels]
  | cons t ts ih =>
      simp only [findLevel]
      split
      · rename_i h
        have hm : upperStr t ∈ levels := by simpa using h
        simp only [levels, List.mem_cons, List.not_mem_nil, or_false] at hm
        rcases hm with h' | h' | h' | h' | h' | h' | h' <;> rw [h'] <;> decide
      · exact ih

theorem extract_level_mem_common (line : String) :
    extract_level line ∈ commonLevels :=
  findLevel_mem_common (tokenize line)

theorem foldl_level_keys (lines : List String) : ∀ st : Stats,
    (∀ k ∈ keys st.level_counts, k ∈ commonLevels) →
      ∀ k ∈ keys (lines.foldl processLine st).level_counts,
        k ∈ commonLevels := by
  induction lines with
  | nil => intro st h; simpa using h
  | cons l ls ih =>
      intro st h
      rw [List.foldl_cons]
      apply ih
      intro k hk
      rw [processLine_levels] at hk
      rcases mem_keys_bump hk with hk | hk
      · exact h k hk
      · rw [hk]
        exact extract_level_mem_common l

instance : IsTotal (String × Nat) pairLe :=
  ⟨by
    intro a b
    rcases Nat.lt_trichotomy a.2 b.2 with h | h | h
    · exact Or.inr (Or.inl h)
    · rcases le_total a.1 b.1 with hs | hs
      · exact Or.inl (Or.inr ⟨h, hs⟩)
      · exact Or.inr (Or.inr ⟨h.symm, hs⟩)
    · exact Or.inl (Or.inl h)⟩

instance : IsTrans (String × Nat) pairLe :=
  ⟨by
    intro a b c hab hbc
    rcases hab with h1 | ⟨h1, hs1⟩ <;> rcases hbc with h2 | ⟨h2, hs2⟩
    · exact Or.inl (by omega)
    · exact Or.inl (by omega)
    · exact Or.inl (by omega)
    · exact Or.inr ⟨by omega, le_trans hs1 hs2⟩⟩

theorem sortPairs_sorted (m : List (String × Nat)) :
    List.Sorted pairLe (sortPairs m) :=
  List.sorted_insertionSort pairLe m

theorem sortPairs_perm (m : List (String × Nat)) :
    (sortPairs m).Perm m :=
  List.perm_insertionSort pairLe m

theorem renderTopLines_eq_enum (m : List (String × Nat)) (top_n : Nat) :
    renderTopLines m top_n =
      (topMessages m top_n).enum.map fun p => fmtTop (p.1 + 1) p.2 := by
  apply List.ext_getElem
  · simp [renderTopLines, topMessages]
  · intro i h1 h2
    simp only [renderTopLines, topMessages] at h1 h2 ⊢
    simp only [List.length_map, List.length_range] at h1
    have hiL : i < (sortPairs m).length := lt_of_lt_of_le h1 (min_le_right _ _)
    have hitake : i < ((sortPairs m).take top_n).length := by
      simp [List.length_take]
      omega
    rw [List.getElem_map, List.getElem_range, List.getElem_map,
      List.getElem_enum, List.getElem_take]
    rw [List.getD_eq_getElem (sortPairs m) ("", 0) hiL]

/-! ## Claim theorems -/

/-- C2: for every input line, `extract_message` returns the text after the
first occurrence of the three-character separator `" - "` with surrounding
whitespace stripped; when the separator does not occur in the line it
returns the whole line with surrounding whitespace stripped. -/
theorem C2_extract_message_first_marker (line : String) :
    (∃ pre post, line.data = pre ++ markerChars ++ post ∧
        (∀ pre' post', line.data = pre' ++ markerChars ++ post' →
          pre.length ≤ pre'.length) ∧
        extract_message line = trim ⟨post⟩) ∨
      ((∀ pre post, line.data ≠ pre ++ markerChars ++ post) ∧
        extract_message line = trim line) := by
  cases h : afterMarker line.data with
  | none =>
      exact Or.inr ⟨afterMarker_none h, by simp [extract_message, h]⟩
  | some rest =>
      obtain ⟨pre, hpre, hmin⟩ := afterMarker_some h
      exact Or.inl ⟨pre, rest, hpre, hmin, by simp [extract_message, h]⟩

/-- Witness for C2 at a concrete line: applying the theorem to `"a - b"`
(whose separator occurs at index 1). -/
theorem C2_extract_message_first_marker_witness :
    (∃ pre post, ("a - b" : String).data = pre ++ markerChars ++ post ∧
        (∀ pre' post', ("a - b" : String).data = pre' ++ markerChars ++ post' →
          pre.length ≤ pre'.length) ∧
        extract_message "a - b" = trim ⟨post⟩) ∨
      ((∀ pre post, ("a - b" : String).data ≠ pre ++ markerChars ++ post) ∧
        extract_message "a - b" = trim "a - b") :=
  C2_extract_message_first_marker "a - b"

/-- C3: the top-messages report is the `(message, count)` pairs of the run,
sorted by count descending with ties broken by message ascending, truncated
to `min top_n (number of distinct messages)` entries, each rendered
1-indexed as `rank) message (count)`. -/
theorem C3_top_messages (lines : List String) (top_n : Nat) :
    List.Sorted pairLe (sortPairs (process_file lines).message_counts) ∧
      (sortPairs (process_file lines).message_counts).Perm
        (process_file lines).message_counts ∧
      topMessages (process_file lines).message_counts top_n =
        (sortPairs (process_file lines).message_counts).take top_n ∧
      (topMessages (process_file lines).message_counts top_n).length =
        min top_n (process_file lines).message_counts.length ∧
      (keys (process_file lines).message_counts).Nodup ∧
      renderTopLines (process_file lines).message_counts top_n =
        ((topMessages (process_file lines).message_counts top_n).enum.map
          fun p => fmtTop (p.1 + 1) p.2) := by
  refine ⟨sortPairs_sorted _, sortPairs_perm _, rfl, ?_, ?_,
    renderTopLines_eq_enum _ _⟩
  · rw [topMessages, List.length_take,
      (sortPairs_perm (process_file lines).message_counts).length_eq]
  · exact foldl_msg_nodup lines ⟨0, [], []⟩ (by simp [keys])

/-- C6: an invocation whose `--top` value `std::stoi` rejects makes
argument parsing fail, so the program prints the usage text to standard
output and exits with code 1. -/
theorem C6_malformed_top (prog filepath nstr : String)
    (fs : String → Option (List String)) (h : stoi nstr = none) :
    mainRun [prog, filepath, "--top", nstr] fs =
      ⟨1, print_usage prog, []⟩ := by
  simp [mainRun, parse_args, h, exeName]

/-- Witness for C6: `--top abc` is rejected, prints usage and exits 1. -/
theorem C6_malformed_top_witness :
    stoi "abc" = none ∧
      mainRun ["log_parser", "app.log", "--top", "abc"] (fun _ => none) =
        ⟨1, print_usage "log_parser", []⟩ :=
  ⟨by decide,
   C6_malformed_top "log_parser" "app.log" "abc" (fun _ => none) (by decide)⟩

/-- C8: every run exits with code 0, 1 or 2: code 1 exactly when argument
parsing fails, with the usage text on standard output; code 2 exactly when
the file cannot be opened, with an error naming the path on standard error;
code 0 otherwise, with nothing on standard error. -/
theorem C8_exit_codes (argv : List String)
    (fs : String → Option (List String)) :
    ((mainRun argv fs).exitCode = 0 ∧ (mainRun argv fs).stderrLines = []) ∨
      ((mainRun argv fs).exitCode = 1 ∧ parse_args argv = none ∧
        (mainRun argv fs).stdoutLines = print_usage (exeName argv) ∧
        (mainRun argv fs).stderrLines = []) ∨
      ((mainRun argv fs).exitCode = 2 ∧
        ∃ filepath top_n, parse_args argv = some (filepath, top_n) ∧
          fs filepath = none ∧
          (mainRun argv fs).stdoutLines = [] ∧
          (mainRun argv fs).stderrLines =
            ["Error: Could not open file: " ++ filepath]) := by
  cases hp : parse_args argv with
  | none =>
      exact Or.inr (Or.inl ⟨by simp [mainRun, hp], rfl,
        by simp [mainRun, hp], by simp [mainRun, hp]⟩)
  | some p =>
      obtain ⟨filepath, top_n⟩ := p
      cases hf : fs filepath with
      | none =>
          exact Or.inr (Or.inr ⟨by simp [mainRun, hp, hf],
            filepath, top_n, rfl, hf,
            by simp [mainRun, hp, hf], by simp [mainRun, hp, hf]⟩)
      | some lines =>
          exact Or.inl ⟨by simp [mainRun, hp, hf], by simp [mainRun, hp, hf]⟩

/-- C9: an empty input file yields `total_lines = 0` and empty counter
maps, the level report prints no level line, and the top-messages report is
the `(No messages found)` placeholder alone. -/
theorem C9_empty_file (top_n : Nat) :
    process_file [] = ⟨0, [], []⟩ ∧
      renderCommonLevelLines (process_file []).level_counts = [] ∧
      renderExtraLevelLines (process_file []).level_counts = [] ∧
      print_results (process_file []) top_n =
        ["", "Summary", "-------", "Total lines: 0", "", "Log levels:", "",
          "Top messages:", "  (No messages found)", ""] := by
  refine ⟨rfl, rfl, rfl, ?_⟩
  have hsort : sortPairs (process_file []).message_counts = [] := rfl
  simp only [print_results, renderTopLines, hsort, List.length_nil,
    Nat.min_zero, List.range_zero, List.map_nil, if_pos rfl]
  decide

/-- C10: `extract_level` only ever returns one of the seven strings TRACE,
DEBUG, INFO, WARN, ERROR, FATAL, UNKNOWN (never `WARNING`), so every key of
`level_counts` lies in the reporter's fixed `common` list and the
reporter's trailing loop for levels outside that list prints nothing. -/
theorem C10_levels_closed :
    (∀ line, extract_level line ∈ commonLevels ∧
      extract_level line ≠ "WARNING") ∧
    (∀ lines,
      (∀ k ∈ keys (process_file lines).level_counts, k ∈ commonLevels) ∧
      renderExtraLevelLines (process_file lines).level_counts = []) := by
  constructor
  · intro line
    refine ⟨extract_level_mem_common line, fun hW => ?_⟩
    have hmem := extract_level_mem_common line
    rw [hW] at hmem
    simp [commonLevels] at hmem
  · intro lines
    have hkeys : ∀ k ∈ keys (process_file lines).level_counts,
        k ∈ commonLevels :=
      foldl_level_keys lines ⟨0, [], []⟩ (by simp [keys])
    refine ⟨hkeys, ?_⟩
    have hfilter : ((process_file lines).level_counts.filter
        fun kv => ¬ commonLevels.contains kv.1) = [] := by
      rw [List.filter_eq_nil_iff]
      intro kv hkv
      have hc := hkeys kv.1 (List.mem_map_of_mem Prod.fst hkv)
      simp [hc]
    simp only [renderExtraLevelLines]
    rw [hfilter]
    rfl

/-- Witness for C10 at a concrete input: the line `x INFO y` maps to a
common level, its key lands in the `common` list, and the trailing loop
prints nothing. -/
theorem C10_levels_closed_witness :
    extract_level "x INFO y" ∈ commonLevels ∧ "INFO" ∈ commonLevels ∧
      renderExtraLevelLines (process_file ["x INFO y"]).level_counts = [] :=
  ⟨(C10_levels_closed.1 "x INFO y").1,
   (C10_levels_closed.2 ["x INFO y"]).1 "INFO" (by decide),
   (C10_levels_closed.2 ["x INFO y"]).2⟩

/-- C1: for every input line, `extract_level` splits the line into
whitespace-delimited tokens in left-to-right order and returns the
uppercased form of the first token that case-insensitively equals one of
TRACE, DEBUG, INFO, WARN, WARNING, ERROR, FATAL, with WARNING normalised to
WARN; if no token matches it returns UNKNOWN. -/
theorem C1_extract_level_first_match (line : String) :
    extract_level line = extract_level_claim line :=
  findLevel_eq_find (tokenize line)

/-- C4: after processing, `total_lines` equals the number of lines read
(blank lines included) and the values of `level_counts` sum to
`total_lines`. -/
theorem C4_level_counts_sum (lines : List String) :
    (process_file lines).total_lines = lines.length ∧
      sumValues (process_file lines).level_counts =
        (process_file lines).total_lines := by
  have h1 : (process_file lines).total_lines = lines.length := by
    simpa [process_file] using foldl_total lines ⟨0, [], []⟩
  refine ⟨h1, ?_⟩
  rw [h1]
  simpa [process_file, sumValues] using foldl_levelSum lines ⟨0, [], []⟩

/-- C5: after processing, the values of `message_counts` sum to the number
of lines whose extracted, trimmed message is non-empty, and the empty
message is never a key of the map (lines with an empty trimmed message
contribute no entry at all). -/
theorem C5_message_counts_sum (lines : List String) :
    sumValues (process_file lines).message_counts =
      (lines.filter fun l => extract_message l ≠ "").length ∧
      "" ∉ keys (process_file lines).message_counts := by
  constructor
  · simpa [process_file, sumValues] using foldl_msgSum lines ⟨0, [], []⟩
  · exact foldl_msg_keys lines ⟨0, [], []⟩ (by simp [keys])

/-- C7: whenever `parse_args` succeeds the returned `top_n` is at least 1;
a parsed `--top` value below 1 is clamped to 1 rather than rejected, and
with no `--top` flag the default is 5. -/
theorem C7_top_n_clamped :
    (∀ argv filepath n, parse_args argv = some (filepath, n) → 1 ≤ n) ∧
    (∀ prog filepath nstr v, stoi nstr = some v → v < 1 →
        parse_args [prog, filepath, "--top", nstr] = some (filepath, 1)) ∧
    (∀ prog filepath, parse_args [prog, filepath] = some (filepath, 5)) := by
  refine ⟨?_, ?_, ?_⟩
  · intro argv filepath n h
    rcases argv with _ | ⟨p, args⟩
    · simp [parse_args] at h
    rcases args with _ | ⟨f, rest⟩
    · simp [parse_args] at h
    rcases rest with _ | ⟨flag, rest2⟩
    · simp [parse_args] at h
      omega
    rcases rest2 with _ | ⟨nstr, rest3⟩
    · simp [parse_args] at h
    rcases rest3 with _ | ⟨x, rest4⟩
    · simp only [parse_args] at h
      by_cases hf : flag = "--top"
      · rw [if_pos hf] at h
        cases hs : stoi nstr with
        | none => rw [hs] at h; simp at h
        | some v =>
            rw [hs] at h
            simp at h
            obtain ⟨hfp, hn⟩ := h
            by_cases hv : v < 1
            · rw [if_pos hv] at hn
              omega
            · rw [if_neg hv] at hn
              omega
      · rw [if_neg hf] at h
        simp at h
    · simp [parse_args] at h
  · intro prog filepath nstr v hs hv
    simp [parse_args, hs, hv]
  · intro prog filepath
    rfl

/-- Witness for C7 at concrete inputs: the default invocation yields
`top_n = 5 ≥ 1`, and `--top -3` is clamped to `1`. -/
theorem C7_top_n_clamped_witness :
    1 ≤ (5 : Int) ∧
      parse_args ["p", "f", "--top", "-3"] = some ("f", 1) ∧
      parse_args ["p", "f"] = some ("f", 5) :=
  ⟨C7_top_n_clamped.1 ["p", "f"] "f" 5 (by rfl),
   C7_top_n_clamped.2.1 "p" "f" "-3" (-3) (by decide) (by decide),
   C7_top_n_clamped.2.2 "p" "f"⟩
